import Mathlib

/-!
Verification of the Memento reminder/calendar application.

The development shallowly embeds the application's core logic:

* the calendar grid engine of `TimelineCalendar` (`getDays`, `resetView`,
  per-day entry bucketing), built on d3's `timeDay` / `timeWeek` /
  `timeMonth` intervals over the ECMA-262 proleptic Gregorian calendar;
* the entry store and account-gate handlers of `App`
  (`handleSaveReminder`, `createReminder`, `handleConfirmReplace`,
  `handleCancelReplace`, `handleLogin`);
* the submit payload construction of `ReminderWidget.handleSubmit`;
* the AI refinement fallback of `refineReminderText`.

Dates are modelled at day granularity as integers counting days since
1970-01-01, and instants as integers counting minutes since
1970-01-01T00:00 in the (single, canonical) local calendar; the spec
fixes one calendar context and no timezone conversion, so local civil
arithmetic is uniform.  Civil (year, month, day) conversions follow the
standard proleptic-Gregorian algorithms that back JavaScript `Date` and
d3-time; all divisions below are Euclidean, and every divisor is a
positive literal, for which Euclidean division coincides with the floor
division these algorithms rely on.
-/

/-- Proleptic-Gregorian leap-year test, as in ECMA-262 date arithmetic. -/
def isLeap (y : Int) : Prop := (y % 4 = 0 ∧ y % 100 ≠ 0) ∨ y % 400 = 0

instance (y : Int) : Decidable (isLeap y) := by
  unfold isLeap; infer_instance

/-- Number of days in month `m` (1–12) of year `y`. -/
def daysInMonth (y m : Int) : Int :=
  if m = 2 then (if isLeap y then 29 else 28)
  else if m = 4 ∨ m = 6 ∨ m = 9 ∨ m = 11 then 30 else 31

/-- Civil (year, month, day) to days since 1970-01-01, per the standard
algorithm (shift the year so it starts in March, count eras of 400
years, then days within the era). -/
def daysFromCivil (y m d : Int) : Int :=
  let ys := if m ≤ 2 then y - 1 else y
  let era := ys / 400
  let yoe := ys - era * 400
  let mp := (m + 9) % 12
  let doy := (153 * mp + 2) / 5 + d - 1
  let doe := yoe * 365 + yoe / 4 - yoe / 100 + doy
  era * 146097 + doe - 719468

/-- Shifted day count used by the inverse conversion (day 0 is
0000-03-01 of the proleptic Gregorian calendar). -/
def zShift (z : Int) : Int := z + 719468

/-- Era (400-year block) containing day `z`. -/
def eraOf (z : Int) : Int := zShift z / 146097

/-- Day of era, in `[0, 146097)`. -/
def doeOf (z : Int) : Int := zShift z - eraOf z * 146097

/-- Year of era, in `[0, 400)`, recovered from the day of era. -/
def yoeOf (z : Int) : Int :=
  (doeOf z - doeOf z / 1460 + doeOf z / 36524 - doeOf z / 146096) / 365

/-- Day of the (March-based) year, in `[0, 365]`. -/
def doyOf (z : Int) : Int :=
  doeOf z - (365 * yoeOf z + yoeOf z / 4 - yoeOf z / 100)

/-- Month index in the March-based year, in `[0, 11]`. -/
def mpOf (z : Int) : Int := (5 * doyOf z + 2) / 153

/-- Days since 1970-01-01 to civil (year, month, day). -/
def civilFromDays (z : Int) : Int × Int × Int :=
  let y := yoeOf z + eraOf z * 400
  let d := doyOf z - (153 * mpOf z + 2) / 5 + 1
  let m := if mpOf z < 10 then mpOf z + 3 else mpOf z - 9
  (if m ≤ 2 then y + 1 else y, m, d)

/-- Civil year of a day number. -/
def yearOf (z : Int) : Int := (civilFromDays z).1

/-- Civil month of a day number. -/
def monthOf (z : Int) : Int := (civilFromDays z).2.1

/-- Civil day-of-month of a day number. -/
def dayOfMonth (z : Int) : Int := (civilFromDays z).2.2

/-!
Bounded facts about the year-of-era recovery formula.  The formula is
verified on the 400 year boundaries of one era by kernel evaluation and
extended to every day of the era by monotonicity.
-/

/-- Day-of-era with the 4-year, 100-year and 400-year correction terms
removed; dividing by 365 yields the year of era. -/
def eraG (x : Nat) : Nat := x - x / 1460 + x / 36524 - x / 146096

/-- Year of era as a function of day of era. -/
def eraF (x : Nat) : Nat := eraG x / 365

/-- First day of era of the (March-based) year `yoe` of an era. -/
def yearStart (yoe : Nat) : Nat := 365 * yoe + yoe / 4 - yoe / 100

/-- Whether the March-based year `yoe` of an era has 366 days (its
February belongs to civil year `era * 400 + yoe + 1`). -/
def yearLongP (yoe : Nat) : Prop :=
  ((yoe + 1) % 4 = 0 ∧ (yoe + 1) % 100 ≠ 0) ∨ yoe = 399

instance (yoe : Nat) : Decidable (yearLongP yoe) := by
  unfold yearLongP; infer_instance

/-- Length of the March-based year `yoe` of an era. -/
def yearLen (yoe : Nat) : Nat := 365 + if yearLongP yoe then 1 else 0

/-- Boundary check for one year of era: the recovery formula is correct
at the first and last day of the year, and the year ends where the next
one starts (the last year ends the era). -/
def yearChk (yoe : Nat) : Bool :=
  (eraF (yearStart yoe)).beq yoe &&
  ((eraF (yearStart yoe + yearLen yoe - 1)).beq yoe &&
   (yearStart yoe + yearLen yoe).beq
     (if yoe = 399 then 146097 else yearStart (yoe + 1)))

/-- Balanced range check: `chkFrom f a n` checks `yearChk` on
`[a, a + n)` splitting the range in half `f` times. -/
def chkFrom : Nat → Nat → Nat → Bool
  | 0, a, n => n.beq 0 || (n.beq 1 && yearChk a)
  | f + 1, a, n =>
      cond (Nat.ble n 1) (n.beq 0 || yearChk a)
        (chkFrom f a (n / 2) && chkFrom f (a + n / 2) (n - n / 2))

set_option maxHeartbeats 1000000 in
theorem chkFrom_years : chkFrom 10 0 400 = true := by decide

theorem chkFrom_spec : ∀ (f a n : Nat), chkFrom f a n = true →
    ∀ i, a ≤ i → i < a + n → yearChk i = true := by
  intro f
  induction f with
  | zero =>
      intro a n h i hai hin
      simp only [chkFrom, Bool.or_eq_true, Nat.beq_eq,
        Bool.and_eq_true] at h
      rcases h with h | ⟨h1, h2⟩
      · omega
      · have hia : i = a := by omega
        rw [hia]; exact h2
  | succ f ih =>
      intro a n h i hai hin
      simp only [chkFrom] at h
      rcases hble : Nat.ble n 1 with _ | _
      · rw [hble] at h
        simp only [cond_false, Bool.and_eq_true] at h
        by_cases hc : i < a + n / 2
        · exact ih a (n / 2) h.1 i hai hc
        · exact ih (a + n / 2) (n - n / 2) h.2 i (by omega) (by omega)
      · rw [hble] at h
        simp only [cond_true, Bool.or_eq_true, Nat.beq_eq] at h
        have hn1 : n ≤ 1 := by
          have := Nat.le_of_ble_eq_true hble
          omega
        rcases h with h | h
        · omega
        · have hia : i = a := by omega
          rw [hia]; exact h

theorem yearChk_true (yoe : Nat) (h : yoe < 400) :
    eraF (yearStart yoe) = yoe ∧
    eraF (yearStart yoe + yearLen yoe - 1) = yoe ∧
    yearStart yoe + yearLen yoe =
      (if yoe = 399 then 146097 else yearStart (yoe + 1)) := by
  have hc := chkFrom_spec 10 0 400 chkFrom_years yoe (Nat.zero_le _) (by omega)
  simp only [yearChk, Bool.and_eq_true, Nat.beq_eq] at hc
  exact ⟨hc.1, hc.2.1, hc.2.2⟩

theorem eraG_step (a : Nat) (h : a < 146097) : eraG a ≤ eraG (a + 1) := by
  simp only [eraG]
  omega

theorem eraG_mono : ∀ (d a : Nat), a + d ≤ 146097 → eraG a ≤ eraG (a + d) := by
  intro d
  induction d with
  | zero => intro a _; exact Nat.le_refl _
  | succ d ih =>
      intro a h
      have h1 : eraG a ≤ eraG (a + d) := ih a (by omega)
      have h2 : eraG (a + d) ≤ eraG (a + d + 1) := eraG_step (a + d) (by omega)
      have h3 : a + (d + 1) = a + d + 1 := by omega
      rw [h3]
      omega

theorem eraF_mono (a b : Nat) (hab : a ≤ b) (hb : b ≤ 146097) :
    eraF a ≤ eraF b := by
  have h : eraG a ≤ eraG b := by
    have := eraG_mono (b - a) a (by omega)
    have hba : a + (b - a) = b := by omega
    rw [hba] at this
    exact this
  exact Nat.div_le_div_right h

theorem yearStart_len_le (yoe : Nat) (h : yoe < 400) :
    yearStart yoe + yearLen yoe ≤ 146097 := by
  simp only [yearStart, yearLen, yearLongP]
  split <;> omega

/-- The recovery formula is constant (equal to `yoe`) on the whole
year `yoe` of the era. -/
theorem eraF_on_year (yoe : Nat) (h : yoe < 400) (doe : Nat)
    (h1 : yearStart yoe ≤ doe) (h2 : doe < yearStart yoe + yearLen yoe) :
    eraF doe = yoe := by
  obtain ⟨hlo, hhi, _⟩ := yearChk_true yoe h
  have hb := yearStart_len_le yoe h
  have m1 : eraF (yearStart yoe) ≤ eraF doe :=
    eraF_mono _ _ h1 (by omega)
  have m2 : eraF doe ≤ eraF (yearStart yoe + yearLen yoe - 1) :=
    eraF_mono _ _ (by omega) (by omega)
  omega

/-- Every day of the era is covered by some year of the era. -/
theorem yearCover : ∀ (n : Nat), n ≤ 400 → ∀ doe : Nat,
    doe < (if n = 400 then 146097 else yearStart n) →
    ∃ yoe, yoe < n ∧ yearStart yoe ≤ doe ∧
      doe < yearStart yoe + yearLen yoe := by
  intro n
  induction n with
  | zero =>
      intro _ doe hd
      rw [if_neg (by omega : ¬ (0 = 400))] at hd
      simp only [yearStart] at hd
      omega
  | succ n ih =>
      intro hn doe hd
      have hn400 : n < 400 := by omega
      obtain ⟨_, _, htile⟩ := yearChk_true n hn400
      have hbnd : (if n + 1 = 400 then 146097 else yearStart (n + 1)) =
          yearStart n + yearLen n := by
        by_cases h399 : n = 399
        · rw [h399] at htile ⊢
          simp only [if_pos rfl] at htile ⊢
          omega
        · have : ¬ (n + 1 = 400) := by omega
          rw [if_neg this]
          rw [if_neg h399] at htile
          omega
      rw [hbnd] at hd
      by_cases hc : doe < yearStart n
      · obtain ⟨yoe, hy1, hy2, hy3⟩ := ih (by omega) doe (by
          rw [if_neg (by omega : ¬ n = 400)]; exact hc)
        exact ⟨yoe, by omega, hy2, hy3⟩
      · exact ⟨n, by omega, by omega, hd⟩

/-- Main bounded fact: for every day of an era the recovery formula
produces a year of era whose interval contains the day. -/
theorem eraF_correct (doe : Nat) (h : doe < 146097) :
    eraF doe < 400 ∧ yearStart (eraF doe) ≤ doe ∧
      doe < yearStart (eraF doe) + yearLen (eraF doe) := by
  obtain ⟨yoe, hy1, hy2, hy3⟩ := yearCover 400 (Nat.le_refl _) doe (by
    simp only [if_pos rfl]; exact h)
  have he : eraF doe = yoe := eraF_on_year yoe hy1 doe hy2 hy3
  rw [he]
  exact ⟨hy1, hy2, hy3⟩

/-!
Transfer of the bounded facts to the integer-valued algorithm.
-/

theorem doeOf_bounds (z : Int) : 0 ≤ doeOf z ∧ doeOf z < 146097 := by
  simp only [doeOf, eraOf, zShift]
  omega

theorem yoeOf_bridge (z : Int) :
    yoeOf z = ((eraF (doeOf z).toNat : Nat) : Int) := by
  have h := doeOf_bounds z
  simp only [yoeOf, eraF, eraG]
  omega

/-- Integer-level consequences of the bounded era facts: the year of
era is in range, its year interval contains the day of era, and the day
of the March-based year exceeds 364 only in a long year. -/
theorem yoe_doy_facts (z : Int) :
    0 ≤ yoeOf z ∧ yoeOf z < 400 ∧
    0 ≤ doyOf z ∧ doyOf z ≤ 365 ∧
    (doyOf z ≤ 364 ∨
      (((yoeOf z + 1) % 4 = 0 ∧ (yoeOf z + 1) % 100 ≠ 0) ∨ yoeOf z = 399)) := by
  have hdoe := doeOf_bounds z
  obtain ⟨n, hn⟩ : ∃ n : Nat, (n : Int) = doeOf z := ⟨(doeOf z).toNat, by omega⟩
  have hcore := eraF_correct n (by omega)
  have hyoe : yoeOf z = ((eraF n : Nat) : Int) := by
    have hb := yoeOf_bridge z
    have hnn : (doeOf z).toNat = n := by omega
    rw [hb, hnn]
  simp only [doyOf]
  rw [hyoe, ← hn]
  by_cases hlong : yearLongP (eraF n)
  · have hlen : yearLen (eraF n) = 366 := by
      simp only [yearLen, if_pos hlong]
    rw [hlen] at hcore
    simp only [yearStart] at hcore
    simp only [yearLongP] at hlong
    omega
  · have hlen : yearLen (eraF n) = 365 := by
      simp only [yearLen, if_neg hlong]
    rw [hlen] at hcore
    simp only [yearStart] at hcore
    omega

/-- Assembly of the conversion roundtrip and component bounds for a day
falling in March..December of its March-based year. -/
theorem assembleLate (z E Y D M : Int)
    (hD : D = z + 719468 - E * 146097 - (365 * Y + Y / 4 - Y / 100))
    (hY1 : 0 ≤ Y) (hY2 : Y < 400)
    (hD1 : 0 ≤ D) (hD2 : D ≤ 365)
    (hM : M = (5 * D + 2) / 153)
    (hM10 : M < 10) :
    daysFromCivil (Y + E * 400) (M + 3) (D - (153 * M + 2) / 5 + 1) = z ∧
    1 ≤ M + 3 ∧ M + 3 ≤ 12 ∧ 1 ≤ D - (153 * M + 2) / 5 + 1 ∧
    D - (153 * M + 2) / 5 + 1 ≤ daysInMonth (Y + E * 400) (M + 3) := by
  have hM0 : 0 ≤ M ∧ M ≤ 9 := by omega
  simp only [daysFromCivil]
  rw [if_neg (by omega : ¬ (M + 3 ≤ 2))]
  have hq : (Y + E * 400) / 400 = E := by omega
  rw [hq]
  have h2 : Y + E * 400 - E * 400 = Y := by ring
  rw [h2]
  have h3 : (M + 3 + 9) % 12 = M := by omega
  rw [h3]
  refine ⟨by omega, by omega, by omega, by omega, ?_⟩
  simp only [daysInMonth, isLeap]
  split_ifs <;> omega

/-- Assembly of the conversion roundtrip and component bounds for a day
falling in January or February of its March-based year (the civil year
is the year of era plus one; February is capped by the leap rule). -/
theorem assembleEarly (z E Y D M : Int)
    (hD : D = z + 719468 - E * 146097 - (365 * Y + Y / 4 - Y / 100))
    (hY1 : 0 ≤ Y) (hY2 : Y < 400)
    (hD1 : 0 ≤ D) (hD2 : D ≤ 365)
    (hlong : D ≤ 364 ∨ (((Y + 1) % 4 = 0 ∧ (Y + 1) % 100 ≠ 0) ∨ Y = 399))
    (hM : M = (5 * D + 2) / 153)
    (hM10 : 10 ≤ M) :
    daysFromCivil (Y + E * 400 + 1) (M - 9) (D - (153 * M + 2) / 5 + 1) = z ∧
    1 ≤ M - 9 ∧ M - 9 ≤ 12 ∧ 1 ≤ D - (153 * M + 2) / 5 + 1 ∧
    D - (153 * M + 2) / 5 + 1 ≤ daysInMonth (Y + E * 400 + 1) (M - 9) := by
  have hM11 : M ≤ 11 := by omega
  simp only [daysFromCivil]
  rw [if_pos (by omega : M - 9 ≤ 2)]
  have h1 : Y + E * 400 + 1 - 1 = Y + E * 400 := by ring
  rw [h1]
  have hq : (Y + E * 400) / 400 = E := by omega
  rw [hq]
  have h2 : Y + E * 400 - E * 400 = Y := by ring
  rw [h2]
  have h3 : (M - 9 + 9) % 12 = M := by omega
  rw [h3]
  refine ⟨by omega, by omega, by omega, by omega, ?_⟩
  simp only [daysInMonth, isLeap]
  split_ifs <;> omega

/-- The civil components of any day number are a valid calendar date,
and converting them back recovers the day number. -/
theorem civilFromDays_correct (z : Int) :
    daysFromCivil (yearOf z) (monthOf z) (dayOfMonth z) = z ∧
    1 ≤ monthOf z ∧ monthOf z ≤ 12 ∧ 1 ≤ dayOfMonth z ∧
    dayOfMonth z ≤ daysInMonth (yearOf z) (monthOf z) := by
  obtain ⟨hY1, hY2, hD1, hD2, hlong⟩ := yoe_doy_facts z
  have hD : doyOf z =
      z + 719468 - eraOf z * 146097 -
        (365 * yoeOf z + yoeOf z / 4 - yoeOf z / 100) := by
    simp only [doyOf, doeOf, zShift]
  simp only [yearOf, monthOf, dayOfMonth, civilFromDays]
  by_cases hmp : mpOf z < 10
  · rw [if_pos hmp]
    rw [if_neg (by
      have : mpOf z = (5 * doyOf z + 2) / 153 := rfl
      omega : ¬ (mpOf z + 3 ≤ 2))]
    exact assembleLate z (eraOf z) (yoeOf z) (doyOf z) (mpOf z)
      hD hY1 hY2 hD1 hD2 rfl hmp
  · rw [if_neg hmp]
    rw [if_pos (by
      have : mpOf z = (5 * doyOf z + 2) / 153 := rfl
      omega : mpOf z - 9 ≤ 2)]
    exact assembleEarly z (eraOf z) (yoeOf z) (doyOf z) (mpOf z)
      hD hY1 hY2 hD1 hD2 hlong rfl (by omega)

/-- The conversion is linear in the day-of-month component. -/
theorem daysFromCivil_linear (y m d : Int) :
    daysFromCivil y m d = daysFromCivil y m 1 + d - 1 := by
  simp only [daysFromCivil]
  split_ifs <;> omega

/-- The first day of the next month is the first day of this month plus
this month's length (the calendar identity behind d3's
`timeMonth.offset`). -/
theorem nextMonthStart (y m : Int) (h1 : 1 ≤ m) (h2 : m ≤ 12) :
    (if m = 12 then daysFromCivil (y + 1) 1 1 else daysFromCivil y (m + 1) 1) =
      daysFromCivil y m 1 + daysInMonth y m := by
  interval_cases m <;>
    simp only [daysFromCivil, daysInMonth, isLeap] <;>
    norm_num <;>
    omega

/-- Components of a day number presented as era, year of era and day of
(March-based) year, for days at most 337 days into the year. -/
theorem monthStart_components (E Yv doy z : Int)
    (hY1 : 0 ≤ Yv) (hY2 : Yv < 400) (hd1 : 0 ≤ doy) (hd2 : doy ≤ 337)
    (hval : z + 719468 = E * 146097 + (365 * Yv + Yv / 4 - Yv / 100) + doy) :
    eraOf z = E ∧ yoeOf z = Yv ∧ doyOf z = doy := by
  have hE : eraOf z = E := by
    simp only [eraOf, zShift]
    omega
  have hdoe : doeOf z = 365 * Yv + Yv / 4 - Yv / 100 + doy := by
    simp only [doeOf, zShift]
    rw [hE]
    omega
  clear hval
  obtain ⟨w, hw⟩ : ∃ w : Nat, (w : Int) = Yv := ⟨Yv.toNat, by omega⟩
  obtain ⟨dn, hdn⟩ : ∃ dn : Nat, (dn : Int) = doy := ⟨doy.toNat, by omega⟩
  have hw4 : ((w / 4 : Nat) : Int) = Yv / 4 := by omega
  have hw100 : ((w / 100 : Nat) : Int) = Yv / 100 := by omega
  have hnEq : (doeOf z).toNat = yearStart w + dn := by
    simp only [yearStart]
    omega
  have hweF : eraF (yearStart w + dn) = w := by
    have hlen : 365 ≤ yearLen w := by
      simp only [yearLen]
      split <;> omega
    refine eraF_on_year w (by omega) _ (by omega) (by omega)
  have hyoe : yoeOf z = Yv := by
    have hb := yoeOf_bridge z
    rw [hb, hnEq, hweF, hw]
  have hdoyz : doyOf z = doy := by
    simp only [doyOf]
    rw [hyoe, hdoe]
    ring
  exact ⟨hE, hyoe, hdoyz⟩

/-- Converting the first day of a civil month back to civil components
recovers the year, the month, and day 1. -/
theorem civilFromDays_monthStart (y m : Int) (h1 : 1 ≤ m) (h2 : m ≤ 12) :
    civilFromDays (daysFromCivil y m 1) = (y, m, 1) := by
  have hds : ∃ E Yv doy : Int, 0 ≤ Yv ∧ Yv < 400 ∧ 0 ≤ doy ∧ doy ≤ 337 ∧
      doy = (153 * ((m + 9) % 12) + 2) / 5 ∧
      (if m ≤ 2 then y - 1 else y) = E * 400 + Yv ∧
      daysFromCivil y m 1 + 719468 =
        E * 146097 + (365 * Yv + Yv / 4 - Yv / 100) + doy := by
    refine ⟨(if m ≤ 2 then y - 1 else y) / 400,
      (if m ≤ 2 then y - 1 else y) -
        ((if m ≤ 2 then y - 1 else y) / 400) * 400,
      (153 * ((m + 9) % 12) + 2) / 5, ?_, ?_, ?_, ?_, rfl, ?_, ?_⟩
    · omega
    · omega
    · omega
    · omega
    · omega
    · simp only [daysFromCivil]
      split_ifs <;> omega
  obtain ⟨E, Yv, doy, hY1, hY2, hd1, hd2, hdoy, hsplit, hval⟩ := hds
  set z := daysFromCivil y m 1 with hz
  obtain ⟨hE, hyoe, hdoyz⟩ :=
    monthStart_components E Yv doy z hY1 hY2 hd1 hd2 (by omega)
  have hmp : mpOf z = (m + 9) % 12 := by
    simp only [mpOf]
    rw [hdoyz]
    omega
  simp only [civilFromDays]
  rw [hmp, hdoyz, hyoe, hE, hdoy]
  by_cases hm2 : m ≤ 2
  · have hmp12 : (m + 9) % 12 = m + 9 := by omega
    rw [hmp12]
    rw [if_neg (by omega : ¬ (m + 9 < 10))]
    rw [if_pos (by omega : m + 9 - 9 ≤ 2)]
    rw [if_pos hm2] at hsplit
    refine Prod.ext ?_ (Prod.ext ?_ ?_) <;> simp only <;> omega
  · have hmp12 : (m + 9) % 12 = m - 3 := by omega
    rw [hmp12]
    rw [if_pos (by omega : m - 3 < 10)]
    rw [if_neg (by omega : ¬ (m - 3 + 3 ≤ 2))]
    rw [if_neg hm2] at hsplit
    refine Prod.ext ?_ (Prod.ext ?_ ?_) <;> simp only <;> omega

/-!
The d3-time intervals used by `TimelineCalendar`, at day granularity.
d3's `timeWeek` is `timeSunday`; 1970-01-01 (day 0) is a Thursday, so
day `z` falls on weekday `(z + 4) % 7` with Sunday = 0.
-/

/-- Weekday of a day number, Sunday = 0 (the d3 week convention). -/
def dayOfWeek (z : Int) : Int := (z + 4) % 7

/-- d3 `timeWeek.floor`: the latest Sunday on or before `z`. -/
def timeWeekFloor (z : Int) : Int := z - dayOfWeek z

/-- d3 `timeWeek.ceil`: the earliest Sunday on or after `z`. -/
def timeWeekCeil (z : Int) : Int := timeWeekFloor (z + 6)

/-- d3 `timeWeek.offset` by one week. -/
def timeWeekOffset1 (z : Int) : Int := z + 7

/-- d3 `timeMonth.floor`: the first day of the month containing `z`. -/
def timeMonthFloor (z : Int) : Int := daysFromCivil (yearOf z) (monthOf z) 1

/-- d3 `timeMonth.offset` by one month: the same day-of-month one
month later.  `getDays` only applies it to month starts, where no
day-of-month clamping can occur. -/
def timeMonthOffset1 (z : Int) : Int :=
  if monthOf z = 12 then daysFromCivil (yearOf z + 1) 1 (dayOfMonth z)
  else daysFromCivil (yearOf z) (monthOf z + 1) (dayOfMonth z)

/-- d3 `timeDay.range`: every day from `a` (inclusive) to `b`
(exclusive). -/
def timeDayRange (a b : Int) : List Int :=
  (List.range (b - a).toNat).map (fun (i : Nat) => a + (i : Int))

/-- The two zoom levels of `TimelineCalendar`. -/
inductive ViewMode
  | month
  | week
deriving DecidableEq

/-- The day cells rendered by `TimelineCalendar.getDays`: the anchor's
month (or week), padded with whole weeks on both sides in month mode. -/
def getDays (currentDate : Int) (viewMode : ViewMode) : List Int :=
  let start := match viewMode with
    | .month => timeMonthFloor currentDate
    | .week => timeWeekFloor currentDate
  let stop := match viewMode with
    | .month => timeMonthOffset1 start
    | .week => timeWeekOffset1 start
  let startGrid := timeWeekFloor start
  let endGrid := match viewMode with
    | .month => timeWeekCeil stop
    | .week => timeWeekOffset1 startGrid
  timeDayRange startGrid endGrid

/-- Two day numbers fall in the same civil month. -/
def sameMonth (z a : Int) : Prop := yearOf z = yearOf a ∧ monthOf z = monthOf a

instance (z a : Int) : Decidable (sameMonth z a) := by
  unfold sameMonth; infer_instance

theorem timeDayRange_length (a b : Int) :
    (timeDayRange a b).length = (b - a).toNat := by
  simp only [timeDayRange, List.length_map, List.length_range]

theorem timeDayRange_get (a b : Int) (i : Nat)
    (h : i < (timeDayRange a b).length) :
    (timeDayRange a b).get ⟨i, h⟩ = a + (i : Int) := by
  simp only [timeDayRange, List.get_eq_getElem, List.getElem_map,
    List.getElem_range]

theorem timeDayRange_mem (a b z : Int) :
    z ∈ timeDayRange a b ↔ a ≤ z ∧ z < b := by
  simp only [timeDayRange, List.mem_map, List.mem_range]
  constructor
  · rintro ⟨i, hi, rfl⟩
    omega
  · rintro ⟨h1, h2⟩
    exact ⟨(z - a).toNat, by omega, by omega⟩

theorem timeDayRange_headI (a b : Int) (h : a < b) :
    (timeDayRange a b).headI = a := by
  obtain ⟨n, hn⟩ : ∃ n : Nat, (b - a).toNat = n + 1 := ⟨(b - a).toNat - 1, by omega⟩
  simp only [timeDayRange, hn, List.range_succ_eq_map, List.map_cons, List.headI]
  norm_num

theorem timeMonthOffset1_monthFloor (a : Int) :
    timeMonthOffset1 (timeMonthFloor a) =
      timeMonthFloor a + daysInMonth (yearOf a) (monthOf a) := by
  obtain ⟨hrt, hm1, hm2, hd1, hd2⟩ := civilFromDays_correct a
  have hRI := civilFromDays_monthStart (yearOf a) (monthOf a) hm1 hm2
  have h1 : yearOf (timeMonthFloor a) = yearOf a := by
    show (civilFromDays (daysFromCivil (yearOf a) (monthOf a) 1)).1 = yearOf a
    rw [hRI]
  have h2 : monthOf (timeMonthFloor a) = monthOf a := by
    show (civilFromDays (daysFromCivil (yearOf a) (monthOf a) 1)).2.1 = monthOf a
    rw [hRI]
  have h3 : dayOfMonth (timeMonthFloor a) = 1 := by
    show (civilFromDays (daysFromCivil (yearOf a) (monthOf a) 1)).2.2 = 1
    rw [hRI]
  simp only [timeMonthOffset1]
  rw [h1, h2, h3]
  have := nextMonthStart (yearOf a) (monthOf a) hm1 hm2
  simp only [timeMonthFloor]
  split_ifs with h12
  · rw [if_pos h12] at this
    exact this
  · rw [if_neg h12] at this
    exact this

theorem sameMonth_between (z a : Int) (h : sameMonth z a) :
    timeMonthFloor a ≤ z ∧
      z < timeMonthFloor a + daysInMonth (yearOf a) (monthOf a) := by
  obtain ⟨hy, hm⟩ := h
  obtain ⟨hrt, hm1, hm2, hd1, hd2⟩ := civilFromDays_correct z
  rw [hy, hm] at hrt hd2
  have hlin := daysFromCivil_linear (yearOf a) (monthOf a) (dayOfMonth z)
  simp only [timeMonthFloor]
  omega

theorem daysInMonth_ge (y m : Int) : 28 ≤ daysInMonth y m := by
  simp only [daysInMonth, isLeap]
  split_ifs <;> omega

/-- C1 (amended).  For every anchor date, `computeGrid` (`getDays`) in
month mode returns an ordered, contiguous, gap-free sequence of
consecutive calendar days whose length is a multiple of 7, that begins
on a week-start day (Sunday), and that includes every date of the
anchor's month; in particular for anchor 2024-03-01 it starts
2024-02-25 and has 42 days (March 2024 spans six calendar weeks, so the
whole-week padding produces 42 cells, not 35). -/
theorem C1_getDays_month (a : Int) :
    (getDays a ViewMode.month).length % 7 = 0 ∧
    getDays a ViewMode.month ≠ [] ∧
    dayOfWeek ((getDays a ViewMode.month).headI) = 0 ∧
    (∀ (i : Nat) (h : i < (getDays a ViewMode.month).length),
      (getDays a ViewMode.month).get ⟨i, h⟩ =
        (getDays a ViewMode.month).headI + (i : Int)) ∧
    (∀ z : Int, sameMonth z a → z ∈ getDays a ViewMode.month) ∧
    (getDays (daysFromCivil 2024 3 1) ViewMode.month).headI =
      daysFromCivil 2024 2 25 ∧
    (getDays (daysFromCivil 2024 3 1) ViewMode.month).length = 42 := by
  have hoff := timeMonthOffset1_monthFloor a
  have hdim := daysInMonth_ge (yearOf a) (monthOf a)
  set s := timeMonthFloor a with hs
  set A := timeWeekFloor s with hAdef
  set b := timeWeekCeil (timeMonthOffset1 s) with hbdef
  have hg : getDays a ViewMode.month = timeDayRange A b := rfl
  have hA0 : dayOfWeek A = 0 := by
    simp only [hAdef, timeWeekFloor, dayOfWeek]
    omega
  have hb0 : dayOfWeek b = 0 := by
    simp only [hbdef, timeWeekCeil, timeWeekFloor, dayOfWeek]
    omega
  have hAs : A ≤ s := by
    simp only [hAdef, timeWeekFloor, dayOfWeek]
    omega
  rw [hoff] at hbdef
  have hsb : s + daysInMonth (yearOf a) (monthOf a) ≤ b := by
    simp only [hbdef, timeWeekCeil, timeWeekFloor, dayOfWeek]
    omega
  have hAb : A < b := by omega
  refine ⟨?_, ?_, ?_, ?_, ?_, by decide, by decide⟩
  · rw [hg, timeDayRange_length]
    simp only [dayOfWeek] at hA0 hb0
    omega
  · rw [hg]
    apply List.length_pos.mp
    rw [timeDayRange_length]
    omega
  · rw [hg, timeDayRange_headI A b hAb]
    exact hA0
  · intro i h
    show (timeDayRange A b).get ⟨i, h⟩ = (timeDayRange A b).headI + (i : Int)
    rw [timeDayRange_get, timeDayRange_headI A b hAb]
  · intro z hz
    have hzb := sameMonth_between z a hz
    rw [hg, timeDayRange_mem]
    omega

/-- C1, counterexample to the claim as stated: for anchor 2024-03-01
the month grid does not have 35 days (it has 42: March 2024 runs from a
Friday to a Sunday and so touches six calendar weeks). -/
theorem C1_counterexample :
    ¬ ((getDays (daysFromCivil 2024 3 1) ViewMode.month).length = 35) := by
  decide

/-- C1, witness: the amended theorem applied to the concrete anchor
2024-03-01, with the day 2024-03-15 of the anchor's month appearing in
the grid and the index-3 cell being three days after the grid start. -/
theorem C1_witness :
    sameMonth (daysFromCivil 2024 3 15) (daysFromCivil 2024 3 1) ∧
    daysFromCivil 2024 3 15 ∈
      getDays (daysFromCivil 2024 3 1) ViewMode.month ∧
    (getDays (daysFromCivil 2024 3 1) ViewMode.month).length % 7 = 0 ∧
    (3 : Nat) < (getDays (daysFromCivil 2024 3 1) ViewMode.month).length ∧
    (getDays (daysFromCivil 2024 3 1) ViewMode.month).get
        ⟨3, by decide⟩ =
      (getDays (daysFromCivil 2024 3 1) ViewMode.month).headI + 3 := by
  refine ⟨by decide, ?_, ?_, by decide, ?_⟩
  · exact (C1_getDays_month (daysFromCivil 2024 3 1)).2.2.2.2.1
      (daysFromCivil 2024 3 15) (by decide)
  · exact (C1_getDays_month (daysFromCivil 2024 3 1)).1
  · exact (C1_getDays_month (daysFromCivil 2024 3 1)).2.2.2.1 3 (by decide)

/-!
Data model of the application (`types.ts`).  The stored ISO date string
of an entry is modelled by the instant it parses to, in minutes since
the epoch; every use in the application goes through `new Date(r.date)`.
-/

/-- Entry category (`ReminderType` in `types.ts`). -/
inductive ReminderType
  | Standard
  | Urgent
  | Meeting
  | Health
  | Idea
deriving DecidableEq

/-- Recurrence rule (`RecurrenceType` in `types.ts`). -/
inductive RecurrenceType
  | None
  | Daily
  | Weekly
  | Monthly
  | Yearly
deriving DecidableEq

/-- Delivery method (`CommunicationMethod` in `types.ts`). -/
inductive CommunicationMethod
  | Notification
  | Email
  | SMS
  | Call
deriving DecidableEq

/-- Recurrence-end mode (the string union in `Reminder`). -/
inductive EndMode
  | never
  | date
  | count
deriving DecidableEq

/-- Recurrence-end value (the `string | number` union in `Reminder`). -/
inductive EndValue
  | str (s : String)
  | num (n : Int)
deriving DecidableEq

/-- A stored entry (`Reminder` in `types.ts`); optional fields are
`Option`s, `none` standing for an absent / `undefined` field. -/
structure Reminder where
  id : String
  userId : String
  title : String
  description : String
  date : Int
  type : ReminderType
  recurrence : RecurrenceType
  method : CommunicationMethod
  completed : Bool
  createdAt : Int
  recurrenceEndMode : Option EndMode
  recurrenceEndValue : Option EndValue
  contactInfo : Option String
deriving DecidableEq

/-- An account (`User` in `types.ts`). -/
structure User where
  id : String
  isTemp : Bool
  name : String
deriving DecidableEq

/-- The widget submit payload: `Omit<Reminder, 'id'|'createdAt'|'userId'>`. -/
structure ReminderData where
  title : String
  description : String
  date : Int
  type : ReminderType
  recurrence : RecurrenceType
  method : CommunicationMethod
  completed : Bool
  recurrenceEndMode : Option EndMode
  recurrenceEndValue : Option EndValue
  contactInfo : Option String
deriving DecidableEq

/-- Building a full entry from a payload: the spread
`{ ...data, id, userId, createdAt }` in `createReminder`. -/
def mkReminder (data : ReminderData) (id userId : String)
    (createdAt : Int) : Reminder :=
  { id := id
    userId := userId
    title := data.title
    description := data.description
    date := data.date
    type := data.type
    recurrence := data.recurrence
    method := data.method
    completed := data.completed
    createdAt := createdAt
    recurrenceEndMode := data.recurrenceEndMode
    recurrenceEndValue := data.recurrenceEndValue
    contactInfo := data.contactInfo }

/-- Merging a payload into an existing entry: the spread `{ ...r,
...data }` in the edit branch of `handleSaveReminder`.  Every own field
of the payload overwrites the entry's (also when it is `undefined`);
`id`, `userId` and `createdAt` are not payload fields and survive. -/
def applyData (r : Reminder) (data : ReminderData) : Reminder :=
  { r with
    title := data.title
    description := data.description
    date := data.date
    type := data.type
    recurrence := data.recurrence
    method := data.method
    completed := data.completed
    recurrenceEndMode := data.recurrenceEndMode
    recurrenceEndValue := data.recurrenceEndValue
    contactInfo := data.contactInfo }

/-- The `App` component state touched by the entry handlers. -/
structure AppState where
  user : User
  reminders : List Reminder
  showWidget : Bool
  editingReminder : Option Reminder
  initialWidgetDate : Option Int
  pendingReminderData : Option ReminderData
  showReplaceDialog : Bool
deriving DecidableEq

/-- `closeWidget` in `App`. -/
def closeWidget (s : AppState) : AppState :=
  { s with showWidget := false, editingReminder := none,
           initialWidgetDate := none }

/-- `createReminder` in `App`: always appends, no capacity check.
`freshId` stands for the `generateId()` call and `now` for
`Date.now()`. -/
def createReminder (s : AppState) (data : ReminderData) (freshId : String)
    (now : Int) : AppState :=
  { s with reminders := s.reminders ++ [mkReminder data freshId s.user.id now] }

/-- `handleSaveReminder` in `App`.  The second component is the blocking
notice text passed to `alert`, when one is raised. -/
def handleSaveReminder (s : AppState) (data : ReminderData)
    (freshId : String) (now : Int) : AppState × Option String :=
  match s.editingReminder with
  | some editing =>
      let updated := s.reminders.map (fun r =>
        if r.id = editing.id then applyData r data else r)
      (closeWidget { s with reminders := updated }, none)
  | none =>
      if s.user.isTemp = true ∧ 1 ≤ s.reminders.length then
        ({ s with pendingReminderData := some data,
                  showReplaceDialog := true }, none)
      else if s.user.isTemp = false ∧ 50 ≤ s.reminders.length then
        (s, some "Account limit reached (50 active reminders). Please delete some entries.")
      else
        (closeWidget (createReminder s data freshId now), none)

/-- `handleConfirmReplace` in `App`: clear the store, create the
pending entry, leave the pending sub-state, close the widget. -/
def handleConfirmReplace (s : AppState) (freshId : String)
    (now : Int) : AppState :=
  match s.pendingReminderData with
  | some pending =>
      closeWidget
        { createReminder { s with reminders := [] } pending freshId now with
          showReplaceDialog := false, pendingReminderData := none }
  | none => s

/-- `handleCancelReplace` in `App`. -/
def handleCancelReplace (s : AppState) : AppState :=
  { s with showReplaceDialog := false, pendingReminderData := none }

/-- `handleLogin` in `App`: a fresh non-temporary identity with the
supplied name; every existing entry is stamped with the constant
`'migrated'` owner marker. -/
def handleLogin (s : AppState) (name freshId : String) : AppState :=
  { s with
    user := { id := freshId, isTemp := false, name := name }
    reminders := s.reminders.map (fun r => { r with userId := "migrated" }) }

/-- `handleLogout` in `App`: back to the guest identity, all entries
discarded. -/
def handleLogout (s : AppState) : AppState :=
  closeWidget
    { s with user := { id := "temp-user", isTemp := true, name := "Guest" }
             reminders := [] }

/-- The payload built by `ReminderWidget.handleSubmit` and passed to
`onAdd`.  The empty-title/date guard and the assembly of the ISO string
from the date and time inputs are elided; `date` is the parsed instant.
The three conditional fields are exactly the source's conditionals. -/
def handleSubmit (title description : String) (date : Int)
    (type : ReminderType) (recurrence : RecurrenceType)
    (method : CommunicationMethod) (initialReminder : Option Reminder)
    (recurrenceEndMode : EndMode) (recurrenceEndValue : EndValue)
    (contactInfo : String) : ReminderData :=
  { title := title
    description := description
    date := date
    type := type
    recurrence := recurrence
    method := method
    completed := match initialReminder with
      | some r => r.completed
      | none => false
    recurrenceEndMode :=
      if recurrence = RecurrenceType.None then none
      else some recurrenceEndMode
    recurrenceEndValue :=
      if recurrence = RecurrenceType.None ∨ recurrenceEndMode = EndMode.never
      then none else some recurrenceEndValue
    contactInfo :=
      if method = CommunicationMethod.Notification then none
      else some contactInfo }

/-- Outcome of the external AI call inside `refineReminderText`:
either a response whose `text` field may be missing, or a thrown
failure. -/
inductive AIOutcome
  | ok (text : Option String)
  | failure

/-- `refineReminderText` in `geminiService.ts`: trimmed response text
when present and non-empty, the input otherwise; the input on any
thrown failure. -/
def refineReminderText (text : String) (outcome : AIOutcome) : String :=
  match outcome with
  | AIOutcome.ok t =>
      match t with
      | some s => if s.trim = "" then text else s.trim
      | none => text
  | AIOutcome.failure => text

/-- The `TimelineCalendar` state touched by `resetView`. -/
structure CalendarState where
  currentDate : Int
  viewMode : ViewMode
deriving DecidableEq

/-- `resetView` in `TimelineCalendar` with the current instant `now`
injected (the source reads `new Date()`; timestamps are minutes).  The
`[0]` of the ascending sort is the head of a stable merge sort. -/
def resetView (reminders : List Reminder) (now : Int)
    (s : CalendarState) : CalendarState :=
  let s1 :=
    if 0 < reminders.length ∧ reminders.any (fun r => decide (now < r.date))
    then
      match ((reminders.filter fun r => decide (now ≤ r.date)).mergeSort
          fun r1 r2 => decide (r1.date ≤ r2.date)).head? with
      | some upcoming => { s with currentDate := upcoming.date }
      | none => { s with currentDate := now }
    else { s with currentDate := now }
  { s1 with viewMode := ViewMode.month }

/-- d3 `timeDay.count` on minute instants: day boundaries after `start`
(exclusive) up to `stop` (inclusive); equivalently the difference of
the floored day numbers. -/
def timeDayCount (start stop : Int) : Int := stop / 1440 - start / 1440

/-- The `dayReminders` filter of `TimelineCalendar`: the entries whose
parsed timestamp falls on grid day `day` (a day number, rendered as its
midnight instant `day * 1440`). -/
def dayReminders (reminders : List Reminder) (day : Int) : List Reminder :=
  reminders.filter fun r => decide (timeDayCount (day * 1440) r.date = 0)

/-- C2.  For a guest account at capacity (at least 1 existing entry),
submitting a new entry adds zero entries and leaves the store unchanged
while the pending-replace sub-state awaits decision; confirming
atomically clears all existing entries and then creates the pending
entry, so the store contains exactly 1 entry (the new one); cancelling
discards the pending data and leaves the entries unchanged. -/
theorem C2_guest_replace_flow (s : AppState) (data : ReminderData)
    (freshId freshId2 : String) (now now2 : Int)
    (hEdit : s.editingReminder = none) (hTemp : s.user.isTemp = true)
    (hLen : 1 ≤ s.reminders.length) :
    (handleSaveReminder s data freshId now).1.reminders = s.reminders ∧
    (handleSaveReminder s data freshId now).1.pendingReminderData =
      some data ∧
    (handleSaveReminder s data freshId now).1.showReplaceDialog = true ∧
    (handleSaveReminder s data freshId now).2 = none ∧
    (handleConfirmReplace (handleSaveReminder s data freshId now).1
        freshId2 now2).reminders =
      [mkReminder data freshId2 s.user.id now2] ∧
    (handleConfirmReplace (handleSaveReminder s data freshId now).1
        freshId2 now2).pendingReminderData = none ∧
    (handleConfirmReplace (handleSaveReminder s data freshId now).1
        freshId2 now2).showReplaceDialog = false ∧
    (handleCancelReplace
        (handleSaveReminder s data freshId now).1).reminders =
      s.reminders ∧
    (handleCancelReplace
        (handleSaveReminder s data freshId now).1).pendingReminderData =
      none := by
  have h1 : handleSaveReminder s data freshId now =
      ({ s with pendingReminderData := some data,
                showReplaceDialog := true }, none) := by
    simp only [handleSaveReminder, hEdit]
    rw [if_pos ⟨hTemp, hLen⟩]
  rw [h1]
  simp only [handleConfirmReplace, handleCancelReplace, createReminder,
    closeWidget, List.nil_append]
  exact ⟨trivial, trivial, trivial, trivial, trivial, trivial, trivial,
    trivial, trivial⟩

/-- C3.  For a named (non-guest) account holding 50 (or more) entries,
submitting a new entry is rejected: the state is unchanged (no entry
created) and the rejection is surfaced only as the user-facing capacity
notice. -/
theorem C3_named_capacity (s : AppState) (data : ReminderData)
    (freshId : String) (now : Int)
    (hEdit : s.editingReminder = none) (hTemp : s.user.isTemp = false)
    (hLen : 50 ≤ s.reminders.length) :
    handleSaveReminder s data freshId now =
      (s, some "Account limit reached (50 active reminders). Please delete some entries.") := by
  simp only [handleSaveReminder, hEdit]
  rw [if_neg (by simp [hTemp]), if_pos ⟨hTemp, hLen⟩]

/-- C8.  Submitting an edit of an existing entry succeeds regardless of
the entry count and account state (the edit branch applies the update
and raises no notice, with no hypothesis on the user or the store
size), and `createReminder`, once invoked, unconditionally appends the
new entry. -/
theorem C8_edit_and_create_unconditional (s : AppState)
    (data : ReminderData) (e : Reminder) (freshId : String) (now : Int)
    (hEdit : s.editingReminder = some e) :
    ((handleSaveReminder s data freshId now).1.reminders =
        s.reminders.map
          (fun r => if r.id = e.id then applyData r data else r) ∧
      (handleSaveReminder s data freshId now).2 = none ∧
      (handleSaveReminder s data freshId now).1.reminders.length =
        s.reminders.length) ∧
    (∀ (s2 : AppState) (d2 : ReminderData) (fid : String) (t : Int),
      (createReminder s2 d2 fid t).reminders =
        s2.reminders ++ [mkReminder d2 fid s2.user.id t] ∧
      (createReminder s2 d2 fid t).reminders.length =
        s2.reminders.length + 1) := by
  constructor
  · simp only [handleSaveReminder, hEdit, closeWidget]
    exact ⟨trivial, trivial, by simp only [List.length_map]⟩
  · intro s2 d2 fid t
    simp only [createReminder, List.length_append, List.length_cons,
      List.length_nil]
    exact ⟨trivial, trivial⟩

/-- C10.  An edit-submit keeps the edited entry's `id`, `userId` and
`createdAt` (the payload cannot change them) and leaves every entry
with a different id unchanged, in place. -/
theorem C10_edit_frame (s : AppState) (data : ReminderData) (e : Reminder)
    (freshId : String) (now : Int) (hEdit : s.editingReminder = some e) :
    (handleSaveReminder s data freshId now).1.reminders.length =
      s.reminders.length ∧
    ∀ (i : Nat) (h : i < s.reminders.length)
      (h2 : i < (handleSaveReminder s data freshId now).1.reminders.length),
      ((s.reminders.get ⟨i, h⟩).id ≠ e.id →
        (handleSaveReminder s data freshId now).1.reminders.get ⟨i, h2⟩ =
          s.reminders.get ⟨i, h⟩) ∧
      ((s.reminders.get ⟨i, h⟩).id = e.id →
        (handleSaveReminder s data freshId now).1.reminders.get ⟨i, h2⟩ =
          applyData (s.reminders.get ⟨i, h⟩) data) ∧
      ((handleSaveReminder s data freshId now).1.reminders.get
          ⟨i, h2⟩).id = (s.reminders.get ⟨i, h⟩).id ∧
      ((handleSaveReminder s data freshId now).1.reminders.get
          ⟨i, h2⟩).userId = (s.reminders.get ⟨i, h⟩).userId ∧
      ((handleSaveReminder s data freshId now).1.reminders.get
          ⟨i, h2⟩).createdAt = (s.reminders.get ⟨i, h⟩).createdAt := by
  have hres : (handleSaveReminder s data freshId now).1.reminders =
      s.reminders.map
        (fun r => if r.id = e.id then applyData r data else r) := by
    simp only [handleSaveReminder, hEdit, closeWidget]
  constructor
  · rw [hres, List.length_map]
  · intro i h h2
    have hget := List.get_of_eq hres ⟨i, h2⟩
    rw [hget]
    simp only [List.get_eq_getElem, List.getElem_map, Fin.coe_cast]
    by_cases hid : s.reminders[i].id = e.id
    · rw [if_pos hid]
      exact ⟨fun hne => absurd hid hne, fun _ => rfl, rfl, rfl, rfl⟩
    · rw [if_neg hid]
      exact ⟨fun _ => rfl, fun heq => absurd heq hid, rfl, rfl, rfl⟩

/-- C5.  The submit payload tracks its governing enum values: both
recurrence-end fields are absent for a non-recurring entry, the end
value is absent when the end mode is `never`, and the contact info is
absent for Notification delivery; a Weekly entry ending after 5
occurrences persists exactly mode `count` with value `5`.  Entries
built from a payload (create) or merged from one (edit) carry exactly
the payload's optional fields. -/
theorem C5_submit_invariant (title description : String) (date : Int)
    (ty : ReminderType) (rec : RecurrenceType)
    (method : CommunicationMethod) (ini : Option Reminder) (em : EndMode)
    (ev : EndValue) (ci : String) :
    (rec = RecurrenceType.None →
      (handleSubmit title description date ty rec method ini em ev
          ci).recurrenceEndMode = none ∧
      (handleSubmit title description date ty rec method ini em ev
          ci).recurrenceEndValue = none) ∧
    (em = EndMode.never →
      (handleSubmit title description date ty rec method ini em ev
          ci).recurrenceEndValue = none) ∧
    (method = CommunicationMethod.Notification →
      (handleSubmit title description date ty rec method ini em ev
          ci).contactInfo = none) ∧
    (∀ (d : ReminderData) (fid uid : String) (ca : Int),
      (mkReminder d fid uid ca).recurrenceEndMode = d.recurrenceEndMode ∧
      (mkReminder d fid uid ca).recurrenceEndValue =
        d.recurrenceEndValue ∧
      (mkReminder d fid uid ca).contactInfo = d.contactInfo) ∧
    (∀ (r : Reminder) (d : ReminderData),
      (applyData r d).recurrenceEndMode = d.recurrenceEndMode ∧
      (applyData r d).recurrenceEndValue = d.recurrenceEndValue ∧
      (applyData r d).contactInfo = d.contactInfo) ∧
    (handleSubmit title description date ty RecurrenceType.Weekly method
        ini EndMode.count (EndValue.num 5) ci).recurrenceEndMode =
      some EndMode.count ∧
    (handleSubmit title description date ty RecurrenceType.Weekly method
        ini EndMode.count (EndValue.num 5) ci).recurrenceEndValue =
      some (EndValue.num 5) := by
  refine ⟨?_, ?_, ?_, fun d fid uid ca => ⟨rfl, rfl, rfl⟩,
    fun r d => ⟨rfl, rfl, rfl⟩, ?_, ?_⟩
  · intro hrec
    subst hrec
    simp [handleSubmit]
  · intro hem
    subst hem
    simp [handleSubmit]
  · intro hm
    subst hm
    simp [handleSubmit]
  · simp [handleSubmit]
  · simp [handleSubmit]

/-- C7.  Login retains every entry, overwrites each entry's `userId`
with the constant `'migrated'` sentinel while leaving every other field
unchanged, and installs a non-temporary identity carrying the supplied
name; when the fresh account id differs from the sentinel, no entry is
owned by the new account id. -/
theorem C7_login_migration (s : AppState) (name freshId : String) :
    (handleLogin s name freshId).user =
      { id := freshId, isTemp := false, name := name } ∧
    (handleLogin s name freshId).user.isTemp = false ∧
    (handleLogin s name freshId).user.name = name ∧
    (handleLogin s name freshId).reminders.length = s.reminders.length ∧
    (∀ (i : Nat) (h : i < s.reminders.length)
        (h2 : i < (handleLogin s name freshId).reminders.length),
      (handleLogin s name freshId).reminders.get ⟨i, h2⟩ =
        { s.reminders.get ⟨i, h⟩ with userId := "migrated" }) ∧
    (freshId ≠ "migrated" →
      ∀ r ∈ (handleLogin s name freshId).reminders,
        r.userId ≠ (handleLogin s name freshId).user.id) := by
  have hres : (handleLogin s name freshId).reminders =
      s.reminders.map (fun r => { r with userId := "migrated" }) := rfl
  refine ⟨rfl, rfl, rfl, by rw [hres, List.length_map], ?_, ?_⟩
  · intro i h h2
    have hget := List.get_of_eq hres ⟨i, h2⟩
    rw [hget]
    simp only [List.get_eq_getElem, List.getElem_map, Fin.coe_cast]
  · intro hne r hr
    rw [hres] at hr
    obtain ⟨r0, _, rfl⟩ := List.mem_map.mp hr
    simpa using fun habs => hne habs.symm

/-- C9.  When the AI collaborator call throws, `refineReminderText`
returns the original input string unchanged (and, being a total
function of the outcome, never propagates the failure). -/
theorem C9_refine_failure_fallback (text : String) :
    refineReminderText text AIOutcome.failure = text := rfl

/-- The day-number-to-civil conversion is injective (distinct day
numbers have distinct civil dates). -/
theorem civilFromDays_inj (z1 z2 : Int)
    (h : civilFromDays z1 = civilFromDays z2) : z1 = z2 := by
  have h1 := (civilFromDays_correct z1).1
  have h2 := (civilFromDays_correct z2).1
  rw [← h1, ← h2]
  simp only [yearOf, monthOf, dayOfMonth, h]

/-- C4.  `bucketEntriesByDay` (`dayReminders`) assigns an entry to a
grid day exactly when the entry's stored timestamp falls on the same
local calendar date as the day, independently of the time-of-day
component; an entry at 2024-03-15T23:30 belongs only to the cell for
2024-03-15, never 2024-03-16. -/
theorem C4_bucket_by_local_date (reminders : List Reminder) (r : Reminder)
    (day : Int) :
    (r ∈ dayReminders reminders day ↔
      r ∈ reminders ∧
        civilFromDays (r.date / 1440) = civilFromDays day) ∧
    (r.date = daysFromCivil 2024 3 15 * 1440 + (23 * 60 + 30) →
      (r ∈ dayReminders reminders (daysFromCivil 2024 3 15) ↔
        r ∈ reminders) ∧
      r ∉ dayReminders reminders (daysFromCivil 2024 3 16)) := by
  have hmain : ∀ d : Int, r ∈ dayReminders reminders d ↔
      r ∈ reminders ∧ r.date / 1440 = d := by
    intro d
    simp only [dayReminders, List.mem_filter, decide_eq_true_eq,
      timeDayCount]
    constructor
    · rintro ⟨hm, hc⟩
      refine ⟨hm, ?_⟩
      omega
    · rintro ⟨hm, hc⟩
      refine ⟨hm, ?_⟩
      omega
  constructor
  · rw [hmain day]
    constructor
    · rintro ⟨hm, hc⟩
      exact ⟨hm, by rw [hc]⟩
    · rintro ⟨hm, hc⟩
      exact ⟨hm, civilFromDays_inj _ _ hc⟩
  · intro hdate
    have hfloor : r.date / 1440 = daysFromCivil 2024 3 15 := by omega
    constructor
    · rw [hmain (daysFromCivil 2024 3 15)]
      simp [hfloor]
    · rw [hmain (daysFromCivil 2024 3 16)]
      rintro ⟨-, habs⟩
      rw [hfloor] at habs
      exact absurd habs (by decide)


/-- The head of the date-ascending merge sort is a minimum of the
list. -/
theorem mergeSort_head_min (l : List Reminder) (u : Reminder)
    (h : (l.mergeSort fun r1 r2 => decide (r1.date ≤ r2.date)).head? =
      some u) :
    u ∈ l ∧ ∀ r ∈ l, u.date ≤ r.date := by
  have hperm := List.mergeSort_perm l
    (fun r1 r2 => decide (r1.date ≤ r2.date))
  have hsorted := @List.sorted_mergeSort Reminder
    (fun r1 r2 : Reminder => decide (r1.date ≤ r2.date))
    (fun a b c hab hbc => by
      simp only [decide_eq_true_eq] at hab hbc ⊢
      omega)
    (fun a b => by
      simp only [Bool.or_eq_true, decide_eq_true_eq]
      omega) l
  rcases hs : l.mergeSort (fun r1 r2 => decide (r1.date ≤ r2.date)) with
    _ | ⟨x, xs⟩
  · rw [hs] at h
    simp at h
  · rw [hs] at h hperm hsorted
    have hux : u = x := by
      simp only [List.head?_cons, Option.some.injEq] at h
      exact h.symm
    subst hux
    have hmem : u ∈ l := hperm.mem_iff.mp (List.mem_cons_self u xs)
    refine ⟨hmem, ?_⟩
    intro r hr
    have hr2 : r ∈ u :: xs := hperm.mem_iff.mpr hr
    rcases List.mem_cons.mp hr2 with hru | hrxs
    · rw [hru]
    · have := (List.pairwise_cons.mp hsorted).1 r hrxs
      simp only [decide_eq_true_eq] at this
      exact this

/-- C6.  `resetAnchor` (`resetView`) sets the anchor to the date of the
chronologically nearest entry whose timestamp is at or after the
current instant when such an entry exists, and to the current date
otherwise; in both cases the view mode is reset to month. -/
theorem C6_resetView (reminders : List Reminder) (now : Int)
    (s : CalendarState) :
    (resetView reminders now s).viewMode = ViewMode.month ∧
    ((∃ r ∈ reminders, now ≤ r.date) →
      ∃ u ∈ reminders, now ≤ u.date ∧
        (∀ r ∈ reminders, now ≤ r.date → u.date ≤ r.date) ∧
        (resetView reminders now s).currentDate = u.date) ∧
    ((∀ r ∈ reminders, r.date < now) →
      (resetView reminders now s).currentDate = now) := by
  simp only [resetView]
  by_cases hcond :
      0 < reminders.length ∧
        reminders.any (fun r => decide (now < r.date)) = true
  · rw [if_pos hcond]
    have hex : ∃ r ∈ reminders, now < r.date := by
      obtain ⟨-, hany⟩ := hcond
      obtain ⟨r, hr, hlt⟩ := List.any_eq_true.mp hany
      exact ⟨r, hr, by simpa using hlt⟩
    obtain ⟨r0, hr0, hr0lt⟩ := hex
    have hr0f : r0 ∈ reminders.filter fun r => decide (now ≤ r.date) := by
      simp only [List.mem_filter, decide_eq_true_eq]
      exact ⟨hr0, by omega⟩
    rcases hh : ((reminders.filter fun r => decide (now ≤ r.date)).mergeSort
        fun r1 r2 => decide (r1.date ≤ r2.date)).head? with _ | u
    · exfalso
      have hperm := List.mergeSort_perm
        (reminders.filter fun r => decide (now ≤ r.date))
        (fun r1 r2 => decide (r1.date ≤ r2.date))
      have := hperm.mem_iff.mpr hr0f
      rcases hsm : (reminders.filter fun r => decide (now ≤ r.date)).mergeSort
          fun r1 r2 => decide (r1.date ≤ r2.date) with _ | ⟨x, xs⟩
      · rw [hsm] at this
        simp at this
      · rw [hsm] at hh
        simp at hh
    · rw [hh]
      obtain ⟨humem, humin⟩ := mergeSort_head_min _ u hh
      simp only [List.mem_filter, decide_eq_true_eq] at humem
      refine ⟨trivial, fun _ => ⟨u, humem.1, humem.2,
        fun r hr hge => ?_, rfl⟩, fun hall => absurd hr0lt ?_⟩
      · apply humin
        simp only [List.mem_filter, decide_eq_true_eq]
        exact ⟨hr, hge⟩
      · have := hall r0 hr0
        omega
  · rw [if_neg hcond]
    refine ⟨trivial, ?_, fun _ => rfl⟩
    intro ⟨r0, hr0, hge⟩
    have hnone : ∀ r ∈ reminders, ¬ (now < r.date) := by
      intro r hr hlt
      exact hcond ⟨List.length_pos.mpr (List.ne_nil_of_mem hr),
        List.any_eq_true.mpr ⟨r, hr, by simpa using hlt⟩⟩
    have hr0eq : r0.date = now := by
      have := hnone r0 hr0
      omega
    refine ⟨r0, hr0, by omega, fun r hr hge2 => by
      have := hnone r hr
      omega, ?_⟩
    show now = r0.date
    omega

/-- A concrete widget payload used to exercise the handlers. -/
def sampleData : ReminderData :=
  { title := "t"
    description := "d"
    date := 0
    type := ReminderType.Standard
    recurrence := RecurrenceType.None
    method := CommunicationMethod.Notification
    completed := false
    recurrenceEndMode := none
    recurrenceEndValue := none
    contactInfo := none }

/-- A concrete stored entry, dated 2024-03-15T23:30 local time. -/
def sampleReminder : Reminder :=
  { id := "r1"
    userId := "u0"
    title := "t"
    description := "d"
    date := daysFromCivil 2024 3 15 * 1440 + (23 * 60 + 30)
    type := ReminderType.Standard
    recurrence := RecurrenceType.None
    method := CommunicationMethod.Notification
    completed := false
    createdAt := 0
    recurrenceEndMode := none
    recurrenceEndValue := none
    contactInfo := none }

/-- A guest session holding one entry. -/
def guestState : AppState :=
  { user := { id := "temp-user", isTemp := true, name := "Guest" }
    reminders := [sampleReminder]
    showWidget := true
    editingReminder := none
    initialWidgetDate := none
    pendingReminderData := none
    showReplaceDialog := false }

/-- A named session holding 50 entries. -/
def namedState : AppState :=
  { user := { id := "acct1", isTemp := false, name := "Ada" }
    reminders := List.replicate 50 sampleReminder
    showWidget := true
    editingReminder := none
    initialWidgetDate := none
    pendingReminderData := none
    showReplaceDialog := false }

/-- A guest session editing its single entry. -/
def editState : AppState :=
  { guestState with editingReminder := some sampleReminder }

/-- C2, witness: the guest replace flow exercised on a concrete
one-entry guest session. -/
theorem C2_witness :
    (handleSaveReminder guestState sampleData "f1" 0).1.reminders =
      guestState.reminders ∧
    (handleSaveReminder guestState sampleData "f1" 0).1.showReplaceDialog =
      true ∧
    (handleConfirmReplace
        (handleSaveReminder guestState sampleData "f1" 0).1 "f2"
        1).reminders = [mkReminder sampleData "f2" guestState.user.id 1] ∧
    (handleCancelReplace
        (handleSaveReminder guestState sampleData "f1" 0).1).reminders =
      guestState.reminders := by
  have h := C2_guest_replace_flow guestState sampleData "f1" "f2" 0 1 rfl
    rfl (by decide)
  exact ⟨h.1, h.2.2.1, h.2.2.2.2.1, h.2.2.2.2.2.2.2.1⟩

/-- C3, witness: the capacity rejection exercised on a concrete
50-entry named session. -/
theorem C3_witness :
    handleSaveReminder namedState sampleData "f1" 0 =
      (namedState, some "Account limit reached (50 active reminders). Please delete some entries.") :=
  C3_named_capacity namedState sampleData "f1" 0 rfl rfl (by decide)

/-- C4, witness: the concrete entry at 2024-03-15T23:30 lands in the
2024-03-15 cell and not in the 2024-03-16 cell. -/
theorem C4_witness :
    sampleReminder ∈
      dayReminders [sampleReminder] (daysFromCivil 2024 3 15) ∧
    sampleReminder ∉
      dayReminders [sampleReminder] (daysFromCivil 2024 3 16) := by
  have h := C4_bucket_by_local_date [sampleReminder] sampleReminder
    (daysFromCivil 2024 3 15)
  refine ⟨((h.2 rfl).1).mpr (by simp), (h.2 rfl).2⟩

/-- C5, witness: the payload invariants at a concrete non-recurring
Notification submit and at the concrete Weekly count-5 submit. -/
theorem C5_witness :
    (handleSubmit "t" "d" 0 ReminderType.Standard RecurrenceType.None
        CommunicationMethod.Notification none EndMode.never
        (EndValue.num 0) "c").recurrenceEndMode = none ∧
    (handleSubmit "t" "d" 0 ReminderType.Standard RecurrenceType.None
        CommunicationMethod.Notification none EndMode.never
        (EndValue.num 0) "c").recurrenceEndValue = none ∧
    (handleSubmit "t" "d" 0 ReminderType.Standard RecurrenceType.None
        CommunicationMethod.Notification none EndMode.never
        (EndValue.num 0) "c").contactInfo = none ∧
    (handleSubmit "t" "d" 0 ReminderType.Standard RecurrenceType.Weekly
        CommunicationMethod.Notification none EndMode.count
        (EndValue.num 5) "c").recurrenceEndMode = some EndMode.count ∧
    (handleSubmit "t" "d" 0 ReminderType.Standard RecurrenceType.Weekly
        CommunicationMethod.Notification none EndMode.count
        (EndValue.num 5) "c").recurrenceEndValue =
      some (EndValue.num 5) := by
  have h := C5_submit_invariant "t" "d" 0 ReminderType.Standard
    RecurrenceType.None CommunicationMethod.Notification none EndMode.never
    (EndValue.num 0) "c"
  exact ⟨(h.1 rfl).1, (h.1 rfl).2, h.2.2.1 rfl, h.2.2.2.2.2.1,
    h.2.2.2.2.2.2⟩

/-- C6, witness: resetting the view over a single future entry at
instant 0 jumps to that entry's date and month mode. -/
theorem C6_witness :
    (resetView [sampleReminder] 0
        { currentDate := 5, viewMode := ViewMode.week }).viewMode =
      ViewMode.month ∧
    ∃ u ∈ [sampleReminder], (0 : Int) ≤ u.date ∧
      (∀ r ∈ [sampleReminder], (0 : Int) ≤ r.date → u.date ≤ r.date) ∧
      (resetView [sampleReminder] 0
          { currentDate := 5, viewMode := ViewMode.week }).currentDate =
        u.date := by
  have h := C6_resetView [sampleReminder] 0
    { currentDate := 5, viewMode := ViewMode.week }
  exact ⟨h.1, h.2.1 ⟨sampleReminder, by simp, by decide⟩⟩

/-- C7, witness: login on the concrete guest session stamps the single
entry with the migration sentinel and installs the named identity. -/
theorem C7_witness :
    (handleLogin guestState "Ada" "acct1").user =
      { id := "acct1", isTemp := false, name := "Ada" } ∧
    (handleLogin guestState "Ada" "acct1").reminders.get ⟨0, by decide⟩ =
      { guestState.reminders.get ⟨0, by decide⟩ with
        userId := "migrated" } ∧
    ∀ r ∈ (handleLogin guestState "Ada" "acct1").reminders,
      r.userId ≠ (handleLogin guestState "Ada" "acct1").user.id := by
  have h := C7_login_migration guestState "Ada" "acct1"
  exact ⟨h.1, h.2.2.2.2.1 0 (by decide) (by decide),
    h.2.2.2.2.2 (by decide)⟩

/-- C8, witness: an edit on the concrete editing session succeeds with
no notice and no size change, and a create appends one entry. -/
theorem C8_witness :
    (handleSaveReminder editState sampleData "f1" 0).2 = none ∧
    (handleSaveReminder editState sampleData "f1" 0).1.reminders.length =
      editState.reminders.length ∧
    (createReminder guestState sampleData "f9" 3).reminders.length =
      guestState.reminders.length + 1 := by
  have h := C8_edit_and_create_unconditional editState sampleData
    sampleReminder "f1" 0 rfl
  exact ⟨h.1.2.1, h.1.2.2, (h.2 guestState sampleData "f9" 3).2⟩

/-- C10, witness: the concrete edit keeps the entry's id, owner and
creation stamp. -/
theorem C10_witness :
    (handleSaveReminder editState sampleData "f1" 0).1.reminders.length =
      editState.reminders.length ∧
    ((handleSaveReminder editState sampleData "f1"
        0).1.reminders.get ⟨0, by decide⟩).id =
      (editState.reminders.get ⟨0, by decide⟩).id ∧
    ((handleSaveReminder editState sampleData "f1"
        0).1.reminders.get ⟨0, by decide⟩).userId =
      (editState.reminders.get ⟨0, by decide⟩).userId ∧
    ((handleSaveReminder editState sampleData "f1"
        0).1.reminders.get ⟨0, by decide⟩).createdAt =
      (editState.reminders.get ⟨0, by decide⟩).createdAt := by
  have h := C10_edit_frame editState sampleData sampleReminder "f1" 0 rfl
  have h5 := h.2 0 (by decide) (by decide)
  exact ⟨h.1, h5.2.2.1, h5.2.2.2.1, h5.2.2.2.2⟩
